import Mathlib

/-!
Verification of the NeuroNarrative signal-preview core: the CSV
signal-inference heuristic (`gsrParser.ts`), the temporal query layer and
gauge projection (`SignalPreview.tsx`), and the stale-parse guard
(`App.tsx`).  JavaScript numbers are modelled as rationals; JavaScript
`undefined` for an optional field is modelled as `Option.none`; fallible
computations return `Option`/`Except`.
-/

/-- Model of `Math.max` on two numbers (NaN never arises in the embedded values). -/
def jsMax (a b : ℚ) : ℚ := if a ≤ b then b else a

/-- Model of `Math.min` on two numbers. -/
def jsMin (a b : ℚ) : ℚ := if a ≤ b then a else b

/-- Function `clamp` from `SignalPreview.tsx`: `Math.min(Math.max(value, min), max)`. -/
def clamp (value mn mx : ℚ) : ℚ := jsMin (jsMax value mn) mx

/-- Constant `DISPLAY_MIN` from `SignalPreview.tsx`. -/
def DISPLAY_MIN : ℚ := 1

/-- Constant `DISPLAY_MAX` from `SignalPreview.tsx`. -/
def DISPLAY_MAX : ℚ := 13/2

/-- The sample record built by `gsrParser.ts` (`ParsedGsrSample`):
optional `baseline`/`resistance` are `undefined` when the source row had
no parseable value there. -/
structure ParsedGsrSample where
  timeSec : ℚ
  value : ℚ
  rawValue : ℚ
  baseline : Option ℚ := none
  resistance : Option ℚ := none
  deriving DecidableEq

/-- Default sample used only to give list indexing a total type; every
indexed access in the embedded algorithms stays in bounds on the inputs
the code reaches. -/
def dfltSample : ParsedGsrSample := { timeSec := 0, value := 0, rawValue := 0 }

/-- Access `samples[i]` for an integer index as produced by the binary-search
loop (always within bounds in real executions). -/
def nthSample (samples : List ParsedGsrSample) (i : Int) : ParsedGsrSample :=
  samples.getD i.toNat dfltSample

/-- Constant `RESISTANCE_TO_GAUGE_SCALE` from `calculateGaugePosition`. -/
def RESISTANCE_TO_GAUGE_SCALE : ℚ := -(1/2)

/-- The unclamped needle position computed inside `calculateGaugePosition`
(the local `position = sample.baseline + resistanceDelta *
RESISTANCE_TO_GAUGE_SCALE`). -/
def gaugePosition (baseline resistance referenceResistance : ℚ) : ℚ :=
  baseline + (resistance - referenceResistance) * RESISTANCE_TO_GAUGE_SCALE

/-- The reference-resistance scan of `calculateGaugePosition`
(`SignalPreview.tsx` lines 249-276): walk the store in order, stop at the
first sample past the query time, skip samples missing baseline or
resistance, and on a sample whose baseline equals the query baseline
record its resistance when it starts a regime (index 0 or predecessor
with a different baseline), else only when no reference was found yet.
`prev` is the list predecessor (`samples[i-1]`), `acc` the reference
found so far. -/
def refScan (qt qb : ℚ) :
    List ParsedGsrSample → Option ParsedGsrSample → Option ℚ → Option ℚ
  | [], _, acc => acc
  | s :: rest, prev, acc =>
    if qt < s.timeSec then acc
    else
      refScan qt qb rest (some s) <|
        match s.baseline, s.resistance with
        | some b, some r =>
          if b = qb then
            match prev with
            | none => some r
            | some p =>
              if p.baseline ≠ some qb then some r
              else match acc with
                   | none => some r
                   | some x => some x
          else acc
        | _, _ => acc

/-- Function `calculateGaugePosition` from `SignalPreview.tsx` (lines 236-301).
Note the final fallback returns `sample.value` without clamping. -/
def calculateGaugePosition (sample : ParsedGsrSample)
    (samples : List ParsedGsrSample) (hasBaseline hasResistance : Bool) : ℚ :=
  match hasBaseline, sample.baseline with
  | true, some b =>
    match hasResistance, sample.resistance with
    | true, some res =>
      match refScan sample.timeSec b samples none none with
      | some referenceResistance =>
        clamp (gaugePosition b res referenceResistance) DISPLAY_MIN DISPLAY_MAX
      | none => clamp b DISPLAY_MIN DISPLAY_MAX
    | _, _ => clamp b DISPLAY_MIN DISPLAY_MAX
  | _, _ => sample.value

example :
    calculateGaugePosition
      { timeSec := 0, value := 5, rawValue := 5, baseline := some 5,
        resistance := some (282/5) }
      [{ timeSec := 0, value := 5, rawValue := 5, baseline := some 5,
         resistance := some (282/5) }] true true = 5 := by
  norm_num [calculateGaugePosition, refScan, gaugePosition, clamp, jsMin, jsMax,
    RESISTANCE_TO_GAUGE_SCALE, DISPLAY_MIN, DISPLAY_MAX]

example :
    calculateGaugePosition
      { timeSec := 100, value := 5, rawValue := 5, baseline := some 5,
        resistance := some (2811/50) }
      [{ timeSec := 0, value := 5, rawValue := 5, baseline := some 5,
         resistance := some (282/5) },
       { timeSec := 100, value := 5, rawValue := 5, baseline := some 5,
         resistance := some (2811/50) }] true true = 509/100 := by
  norm_num [calculateGaugePosition, refScan, gaugePosition, clamp, jsMin, jsMax,
    RESISTANCE_TO_GAUGE_SCALE, DISPLAY_MIN, DISPLAY_MAX]

/-- Model of `Math.max` on integer indexes. -/
def jsMaxI (a b : Int) : Int := if a ≤ b then b else a

/-- Model of `Math.min` on integer indexes. -/
def jsMinI (a b : Int) : Int := if a ≤ b then a else b

/-- The binary-search loop shared by `useInterpolatedValue` and
`useInterpolatedSample` (`SignalPreview.tsx` lines 194-206): `left`/`right`
move exactly as in the source; `mid = Math.floor((left + right) / 2)` is
integer floor division.  `fuel` is a structural bound on the number of
iterations: every iteration strictly shrinks `right + 1 - left`, so any
`fuel ≥ (right + 1 - left).toNat` makes the out-of-fuel branch
unreachable (proved below). -/
def searchLoop (samples : List ParsedGsrSample) (t : ℚ) :
    ℕ → Int → Int → ℕ ⊕ (Int × Int)
  | 0, left, right => Sum.inr (left, right)
  | fuel + 1, left, right =>
    if left ≤ right then
      let mid := (left + right) / 2
      if (nthSample samples mid).timeSec = t then Sum.inl mid.toNat
      else if (nthSample samples mid).timeSec < t then
        searchLoop samples t fuel (mid + 1) right
      else
        searchLoop samples t fuel left (mid - 1)
    else Sum.inr (left, right)

/-- The record built on the interpolation branch of
`useInterpolatedSample` (`SignalPreview.tsx` lines 215-228): `value`,
`rawValue` and (when both sides have it) `resistance` are linearly
interpolated with the clamped ratio, `resistance` falls back to
whichever side has it (`lower.resistance ?? upper.resistance`), and
`baseline` is the lower bracket's baseline unconditionally (step
semantics, per the comment in the source). -/
def interpRecord (lower upper : ParsedGsrSample) (timeSec : ℚ) : ParsedGsrSample :=
  let frac := (timeSec - lower.timeSec) / (upper.timeSec - lower.timeSec)
  let clampedFrac := clamp frac 0 1
  { timeSec := timeSec
    value := lower.value + (upper.value - lower.value) * clampedFrac
    rawValue := lower.rawValue + (upper.rawValue - lower.rawValue) * clampedFrac
    baseline := lower.baseline
    resistance :=
      match lower.resistance, upper.resistance with
      | some lr, some ur => some (lr + (ur - lr) * clampedFrac)
      | some lr, none => some lr
      | none, ur => ur }

/-- Function `useInterpolatedSample` from `SignalPreview.tsx` (lines 182-230):
clamp to the boundary samples, exact hits return the stored sample,
otherwise interpolate `value`/`rawValue`, interpolate `resistance` only
when both brackets have it (else fall back to whichever side has it, as
`lower.resistance ?? upper.resistance`), and take `baseline` from the
lower bracket unconditionally. -/
def useInterpolatedSample (samples : List ParsedGsrSample) (timeSec : ℚ) :
    Option ParsedGsrSample :=
  match samples with
  | [] => none
  | s0 :: _ =>
    if timeSec ≤ s0.timeSec then some s0
    else if (nthSample samples ((samples.length : Int) - 1)).timeSec ≤ timeSec then
      some (nthSample samples ((samples.length : Int) - 1))
    else
      match searchLoop samples timeSec samples.length 0 ((samples.length : Int) - 1) with
      | Sum.inl m => some (samples.getD m dfltSample)
      | Sum.inr (left, right) =>
        let lower := nthSample samples (jsMaxI 0 right)
        let upper := nthSample samples (jsMinI ((samples.length : Int) - 1) left)
        if upper.timeSec = lower.timeSec then some lower
        else some (interpRecord lower upper timeSec)

example :
    (useInterpolatedSample
      [{ timeSec := 0, value := 1, rawValue := 1, resistance := some (282/5) },
       { timeSec := 100, value := 2, rawValue := 2, resistance := some (2811/50) }] 50).map
      (fun s => s.resistance) = some (some (5631/100)) := by
  norm_num [useInterpolatedSample, searchLoop, nthSample, jsMaxI, jsMinI, clamp, jsMin,
    jsMax, dfltSample, interpRecord]

/-- Leading run of decimal digits of a character list, with the rest
(the repeated `\d` consumption of `Number.parseFloat`). -/
def takeDigits : List Char → List Char × List Char
  | [] => ([], [])
  | c :: cs =>
    if c.isDigit then
      let (ds, rest) := takeDigits cs
      (c :: ds, rest)
    else ([], c :: cs)

/-- Numeric value of a digit run. -/
def digitsToNat (ds : List Char) : ℕ :=
  ds.foldl (fun acc c => acc * 10 + (c.toNat - 48)) 0

/-- Model of `Number.parseFloat` on a trimmed token, restricted to finite results:
longest prefix of the form sign, integer digits, optional fraction,
optional exponent; `none` models NaN (no digits in the mantissa).  The
`Infinity` literal would also make `sanitizeNumber` return null, which is
how `none` is consumed, so it needs no separate case. -/
def parseFloatQ (s : List Char) : Option ℚ :=
  let signRest : ℚ × List Char :=
    match s with
    | [] => (1, [])
    | c :: rest => if c = '-' then (-1, rest) else if c = '+' then (1, rest) else (1, s)
  let (intDs, s2) := takeDigits signRest.2
  let fracRest : List Char × List Char :=
    match s2 with
    | [] => ([], [])
    | c :: rest => if c = '.' then takeDigits rest else ([], s2)
  if intDs.isEmpty ∧ fracRest.1.isEmpty then none
  else
    let mantissa : ℚ :=
      (digitsToNat intDs : ℚ) + (digitsToNat fracRest.1 : ℚ) / 10 ^ fracRest.1.length
    let scaled : ℚ :=
      match fracRest.2 with
      | [] => mantissa
      | e :: rest =>
        if e = 'e' ∨ e = 'E' then
          let expRest : Bool × List Char :=
            match rest with
            | [] => (false, [])
            | c2 :: r => if c2 = '-' then (true, r) else if c2 = '+' then (false, r) else (false, rest)
          let (expDs, _) := takeDigits expRest.2
          if expDs.isEmpty then mantissa
          else if expRest.1 then mantissa / 10 ^ digitsToNat expDs
          else mantissa * 10 ^ digitsToNat expDs
        else mantissa
    some (signRest.1 * scaled)

/-- Model of `String.prototype.trim`. -/
def trimChars (cs : List Char) : List Char :=
  ((cs.dropWhile Char.isWhitespace).reverse.dropWhile Char.isWhitespace).reverse

/-- Model of `text.replace` with a literal comma pattern: only the first comma is replaced. -/
def replaceFirstComma : List Char → List Char
  | [] => []
  | c :: cs => if c = ',' then '.' :: cs else c :: replaceFirstComma cs

/-- Function `sanitizeNumber` from `gsrParser.ts` (lines 40-51) on a string value
(`null`/`undefined` inputs are handled by the callers' `Option.bind`).
The gate `NUMERIC_REGEX.test(text)` with the unanchored pattern
`-?\d+(?:[\.,]\d+)?` succeeds exactly when the text contains at least one
digit: a match needs a digit, and any single digit is already a match. -/
def sanitizeNumber (cs : List Char) : Option ℚ :=
  let text := trimChars cs
  if text.isEmpty ∨ ¬ text.any Char.isDigit then none
  else parseFloatQ (replaceFirstComma text)

example : sanitizeNumber "56,40".data = some (282/5) := by
  simp +decide [sanitizeNumber, trimChars, replaceFirstComma, parseFloatQ, takeDigits,
    digitsToNat, List.dropWhile, List.any, List.foldl]
  norm_num

example : sanitizeNumber "a1".data = none := by
  norm_num +decide [sanitizeNumber, trimChars, replaceFirstComma, parseFloatQ, takeDigits,
    digitsToNat, List.dropWhile, List.any]

/-- Does `needle` occur at the start of `haystack`? -/
def startsWith : List Char → List Char → Bool
  | _, [] => true
  | [], _ :: _ => false
  | c :: cs, d :: ds => c = d && startsWith cs ds

/-- Substring containment, the semantics of `RegExp.test` for the literal
priority patterns of `gsrParser.ts` and of `String.prototype.includes`. -/
def containsSub : List Char → List Char → Bool
  | [], needle => needle.isEmpty
  | hay@(_ :: rest), needle => startsWith hay needle || containsSub rest needle

/-- Function `normalizeField` from `gsrParser.ts`: `field.trim().toLowerCase()`,
on the character list (headers are ASCII, where `Char.toLower` agrees
with `String.prototype.toLowerCase`). -/
def normalizeField (field : String) : List Char :=
  (trimChars field.data).map Char.toLower

/-- Table `FIELD_PRIORITY` from `gsrParser.ts`: literal substring patterns with
their score bonuses (0.4 / 0.25 / 0.2 / 0.15 / 0.1). -/
def FIELD_PRIORITY : List (String × ℚ) :=
  [("baseline", 2/5), ("resistance", 1/4), ("conductance", 1/5),
   ("data", 3/20), ("value", 1/10)]

/-- Ascending numeric sort, the behaviour of `values.sort((a, b) => a - b)`
on the parsed numbers (stability is irrelevant for equal rationals). -/
def insertSorted (x : ℚ) : List ℚ → List ℚ
  | [] => [x]
  | y :: ys => if x ≤ y then x :: y :: ys else y :: insertSorted x ys

/-- Ascending sort of the parsed column values. -/
def sortAsc (l : List ℚ) : List ℚ := l.foldr insertSorted []

/-- The column median used by `chooseValueField`:
`sorted[Math.floor(sorted.length / 2)]`. -/
def medianVal (values : List ℚ) : ℚ :=
  (sortAsc values).getD ((sortAsc values).length / 2) 0

/-- The divisor loop of `chooseValueField` (`gsrParser.ts` lines 99-106):
`while (adjustedMedian > 20 && iterations < 6)` divide the running median
by 10 and multiply the divisor by 10.  `fuel` counts the remaining
iterations, starting at 6. -/
def divisorGo : ℕ → ℚ → ℚ → ℚ
  | 0, _, divisor => divisor
  | fuel + 1, adjustedMedian, divisor =>
    if 20 < adjustedMedian then divisorGo fuel (adjustedMedian / 10) (divisor * 10)
    else divisor

/-- The per-candidate power-of-ten divisor derived from the column median. -/
def columnDivisor (values : List ℚ) : ℚ := divisorGo 6 (medianVal values) 1

/-- A row of the parsed CSV: header name to cell token (a missing cell is
`none`, matching `row[field] === undefined`). -/
def Row : Type := List (String × String)

/-- Lookup `row[field]`. -/
def rowGet (row : Row) (field : String) : Option String :=
  (row.find? (fun p => p.1 = field)).map (fun p => p.2)

/-- Applies `sanitizeNumber` on a possibly-missing cell (`null`/`undefined` give
null before the string path). -/
def sanitizeCell (cell : Option String) : Option ℚ :=
  cell.bind (fun s => sanitizeNumber s.data)

/-- The scored candidate record tracked by the `best` accumulator of
`chooseValueField`. -/
structure BestCandidate where
  field : String
  divisor : ℚ
  min : ℚ
  max : ℚ
  score : ℚ
  deriving DecidableEq

/-- Scoring of one candidate column (`chooseValueField` loop body,
`gsrParser.ts` lines 83-127); `none` when the column has no parseable
value (the `continue`, which leaves `best.score` at negative infinity). -/
def evalField (rows : List Row) (field : String) : Option BestCandidate :=
  let values := rows.filterMap (fun row => sanitizeCell (rowGet row field))
  if values.isEmpty then none
  else
    let divisor := columnDivisor values
    let scaledValues := values.map (fun v => v / divisor)
    let withinRange := (scaledValues.filter (fun v => 1/2 ≤ v ∧ v ≤ 10)).length
    let mx := scaledValues.foldl jsMax (scaledValues.headD 0)
    let mn := scaledValues.foldl jsMin (scaledValues.headD 0)
    let spread := mx - mn
    let priorityBonus :=
      ((FIELD_PRIORITY.find? (fun p => containsSub (normalizeField field) p.1.data)).map
        (fun p => p.2)).getD (1/20)
    let rangeScore := (withinRange : ℚ) / (scaledValues.length : ℚ)
    let variabilityScore := if 0 < spread then jsMin (spread / 5) 1 else -(1/5)
    some
      { field := field, divisor := divisor, min := mn, max := mx,
        score := rangeScore * (3/5) + variabilityScore * (1/4) + priorityBonus }

/-- Function `chooseValueField` from `gsrParser.ts` (lines 53-139): candidate set
from the priority patterns, else every non-empty non-time header; iterate
keeping the strictly best score (ties keep the earlier field); error when
no candidate exists or none has a parseable value. -/
def chooseValueField (fields : List String) (rows : List Row) :
    Except String BestCandidate :=
  let candidates := fields.filter
    (fun field => FIELD_PRIORITY.any (fun p => containsSub (normalizeField field) p.1.data))
  let fallbackNumeric := fields.filter
    (fun field => !(normalizeField field).isEmpty && !containsSub (normalizeField field) "time".data)
  let fieldsToConsider := if candidates.isEmpty then fallbackNumeric else candidates
  if fieldsToConsider.isEmpty then
    Except.error "The CSV export does not contain any numeric signal columns."
  else
    let best := fieldsToConsider.foldl
      (fun best field =>
        match evalField rows field with
        | none => best
        | some cand =>
          match best with
          | none => some cand
          | some b => if b.score < cand.score then some cand else some b)
      none
    match best with
    | some b => Except.ok b
    | none => Except.error "Unable to infer a usable signal column from the CSV export."

/-- Consecutive inter-sample time differences
(`samples[i].timeSec - samples[i-1].timeSec` for `i ≥ 1`). -/
def consecDiffs : List ℚ → List ℚ
  | [] => []
  | [_] => []
  | a :: b :: rest => (b - a) :: consecDiffs (b :: rest)

/-- The mean inter-sample interval (`avgDiff`); division by zero yields 0
for an empty diff list, which the callers treat through `consecDiffs = []`
separately. -/
def avgInterval (samples : List ParsedGsrSample) : ℚ :=
  let diffs := consecDiffs (samples.map (fun s => s.timeSec))
  diffs.sum / (diffs.length : ℚ)

/-- The sampling-rate computation at the end of `parseGsrCsv`
(`gsrParser.ts` lines 258-265): `null` when there are no diffs, and
`avgDiff && avgDiff > 0 ? 1 / avgDiff : null` otherwise (`avgDiff === 0`
is falsy and also yields `null`). -/
def samplingRateHz (samples : List ParsedGsrSample) : Option ℚ :=
  match consecDiffs (samples.map (fun s => s.timeSec)) with
  | [] => none
  | _ => if 0 < avgInterval samples then some (1 / avgInterval samples) else none

/-- The preview state of `App.tsx` touched by `handleCsvChange`; the
payload type of a successful parse is abstract. -/
structure ParseUiState (α : Type) where
  latestParseId : ℕ
  gsrPreview : Option α
  parseError : Option String
  isParsingCsv : Bool

/-- The synchronous head of `handleCsvChange` for a non-null file
(`App.tsx` lines 56-76): clear the preview, take a fresh parse id
(`latestParseId.current + 1`), store it, and mark parsing in progress.
Returns the new state together with the captured `parseId`. -/
def beginCsvParse {α : Type} (s : ParseUiState α) : ParseUiState α × ℕ :=
  let parseId := s.latestParseId + 1
  ({ s with latestParseId := parseId, gsrPreview := none, isParsingCsv := true }, parseId)

/-- The continuation run when `parseGsrCsv` resolves (`App.tsx` lines
77-102, success path plus `finally`): a completion whose captured id is
no longer `latestParseId.current` returns without touching the state. -/
def resolveCsvParse {α : Type} (s : ParseUiState α) (parseId : ℕ) (parsed : α) :
    ParseUiState α :=
  if s.latestParseId ≠ parseId then s
  else { s with gsrPreview := some parsed, parseError := none, isParsingCsv := false }

/-- The continuation run when `parseGsrCsv` rejects (`App.tsx` lines
90-102): a stale failure is likewise discarded by the id comparison. -/
def rejectCsvParse {α : Type} (s : ParseUiState α) (parseId : ℕ) (message : String) :
    ParseUiState α :=
  if s.latestParseId ≠ parseId then s
  else { s with parseError := some message, isParsingCsv := false }

lemma clamp_bounds (v mn mx : ℚ) (h : mn ≤ mx) :
    mn ≤ clamp v mn mx ∧ clamp v mn mx ≤ mx := by
  unfold clamp jsMin jsMax
  split_ifs <;> constructor <;> linarith

lemma clamp_of_mem (v mn mx : ℚ) (h1 : mn ≤ v) (h2 : v ≤ mx) : clamp v mn mx = v := by
  unfold clamp jsMin jsMax
  split_ifs <;> linarith

/-- Claim C5: holding the baseline and the reference resistance fixed, the
unclamped projection `baseline + (resistance - referenceResistance) *
RESISTANCE_TO_GAUGE_SCALE` is strictly decreasing in the sample's
resistance (scale -0.5), so a resistance decrease moves the projection up
and an increase moves it down. -/
theorem gaugePosition_strict_anti :
    ∀ (b ref r1 r2 : ℚ), r1 < r2 → gaugePosition b r2 ref < gaugePosition b r1 ref := by
  intro b ref r1 r2 h
  unfold gaugePosition RESISTANCE_TO_GAUGE_SCALE
  nlinarith

/-- Witness for C5: the spec's worked example, reference 56.40 kOhm,
baseline 5.00: at resistance 56.22 the projection is 5.09, and the
resistance increase 56.22 to 56.40 moves the projection down (5.00 at
56.40 is below 5.09 at 56.22). -/
theorem gaugePosition_strict_anti_witness :
    gaugePosition 5 (2811/50) (282/5) = 509/100 ∧
    gaugePosition 5 (282/5) (282/5) < gaugePosition 5 (2811/50) (282/5) :=
  ⟨by norm_num [gaugePosition, RESISTANCE_TO_GAUGE_SCALE],
   gaugePosition_strict_anti 5 (282/5) (2811/50) (282/5) (by norm_num)⟩

/-- Counterexample to claim C1: on the fallback branch (no baseline) the
code returns `sample.value` without clamping, so a store whose scaled
values sit below 1 yields a projection outside `[DISPLAY_MIN,
DISPLAY_MAX]`. -/
theorem calculateGaugePosition_clamp_cex :
    ¬ (DISPLAY_MIN ≤
        calculateGaugePosition { timeSec := 0, value := 1/2, rawValue := 1/2 }
          [{ timeSec := 0, value := 1/2, rawValue := 1/2 }] false false ∧
       calculateGaugePosition { timeSec := 0, value := 1/2, rawValue := 1/2 }
          [{ timeSec := 0, value := 1/2, rawValue := 1/2 }] false false ≤ DISPLAY_MAX) := by
  norm_num [calculateGaugePosition, DISPLAY_MIN, DISPLAY_MAX]

/-- Claim C1 (amended): whenever a baseline is available (`hasBaseline`
and a baseline value on the sample) the projection is clamped into
`[DISPLAY_MIN, DISPLAY_MAX]`; on the fallback branch (no baseline flag or
no baseline value) the plain interpolated `value` is returned unclamped. -/
theorem calculateGaugePosition_clamp :
    ∀ (sample : ParsedGsrSample) (samples : List ParsedGsrSample) (hB hR : Bool),
      (∀ b : ℚ, hB = true → sample.baseline = some b →
        DISPLAY_MIN ≤ calculateGaugePosition sample samples hB hR ∧
        calculateGaugePosition sample samples hB hR ≤ DISPLAY_MAX) ∧
      (hB = false ∨ sample.baseline = none →
        calculateGaugePosition sample samples hB hR = sample.value) := by
  intro sample samples hB hR
  have hmm : DISPLAY_MIN ≤ DISPLAY_MAX := by norm_num [DISPLAY_MIN, DISPLAY_MAX]
  constructor
  · rintro b rfl hb
    cases hR with
    | false =>
      simp only [calculateGaugePosition, hb]
      exact clamp_bounds b DISPLAY_MIN DISPLAY_MAX hmm
    | true =>
      rcases hres : sample.resistance with - | res
      · simp only [calculateGaugePosition, hb, hres]
        exact clamp_bounds b DISPLAY_MIN DISPLAY_MAX hmm
      · rcases href : refScan sample.timeSec b samples none none with - | ref
        · simp only [calculateGaugePosition, hb, hres, href]
          exact clamp_bounds b DISPLAY_MIN DISPLAY_MAX hmm
        · simp only [calculateGaugePosition, hb, hres, href]
          exact clamp_bounds _ DISPLAY_MIN DISPLAY_MAX hmm
  · rintro (rfl | hb)
    · simp only [calculateGaugePosition]
    · simp only [calculateGaugePosition, hb]

/-- Witness for the amended C1: a sample with baseline 100 projects to a
value inside the display range. -/
theorem calculateGaugePosition_clamp_witness :
    DISPLAY_MIN ≤
      calculateGaugePosition { timeSec := 0, value := 0, rawValue := 0, baseline := some 100 }
        [] true false ∧
    calculateGaugePosition { timeSec := 0, value := 0, rawValue := 0, baseline := some 100 }
        [] true false ≤ DISPLAY_MAX :=
  (calculateGaugePosition_clamp
    { timeSec := 0, value := 0, rawValue := 0, baseline := some 100 } [] true false).1
    100 rfl rfl

/-- Claim C9: a parse begun after another one supersedes it; the earlier
completion (or failure) finds `latestParseId` advanced and leaves the
state untouched, so only the later parse's result is ever published as
the preview.  No cancellation is involved: the stale continuations still
run, they just compare ids. -/
theorem stale_parse_discard :
    ∀ (α : Type) (s0 : ParseUiState α) (rA rB : α) (msg : String)
      (s1 : ParseUiState α) (idA : ℕ) (s2 : ParseUiState α) (idB : ℕ),
      beginCsvParse s0 = (s1, idA) → beginCsvParse s1 = (s2, idB) →
      resolveCsvParse s2 idA rA = s2 ∧
      rejectCsvParse s2 idA msg = s2 ∧
      (resolveCsvParse (resolveCsvParse s2 idA rA) idB rB).gsrPreview = some rB ∧
      (resolveCsvParse (resolveCsvParse s2 idB rB) idA rA).gsrPreview = some rB ∧
      (rejectCsvParse (resolveCsvParse s2 idB rB) idA msg).gsrPreview = some rB := by
  intro α s0 rA rB msg s1 idA s2 idB h1 h2
  simp only [beginCsvParse, Prod.mk.injEq] at h1 h2
  obtain ⟨rfl, rfl⟩ := h1
  obtain ⟨rfl, rfl⟩ := h2
  have hne : s0.latestParseId + 1 + 1 ≠ s0.latestParseId + 1 := by omega
  refine ⟨?_, ?_, ?_, ?_, ?_⟩ <;>
    simp [resolveCsvParse, rejectCsvParse, hne]

/-- Witness for C9 at a concrete initial state: parse A (id 1) then parse
B (id 2); in either completion order only B's payload 2 is published. -/
theorem stale_parse_discard_witness :
    resolveCsvParse (⟨2, none, none, true⟩ : ParseUiState ℕ) 1 1 = ⟨2, none, none, true⟩ ∧
    rejectCsvParse (⟨2, none, none, true⟩ : ParseUiState ℕ) 1 "boom" = ⟨2, none, none, true⟩ ∧
    (resolveCsvParse (resolveCsvParse (⟨2, none, none, true⟩ : ParseUiState ℕ) 1 1) 2 2).gsrPreview
      = some 2 ∧
    (resolveCsvParse (resolveCsvParse (⟨2, none, none, true⟩ : ParseUiState ℕ) 2 2) 1 1).gsrPreview
      = some 2 ∧
    (rejectCsvParse (resolveCsvParse (⟨2, none, none, true⟩ : ParseUiState ℕ) 2 2) 1 "boom").gsrPreview
      = some 2 :=
  stale_parse_discard ℕ ⟨0, none, none, false⟩ 1 2 "boom"
    ⟨1, none, none, true⟩ 1 ⟨2, none, none, true⟩ 2 rfl rfl

/-- Claim C10: the priority-pattern candidate set does not exclude the
time column: with the single header "data time" (the time column, since
its name contains "time"), the priority pattern "data" matches and the
engine selects the time column itself as the value field; the fallback
path (no priority match anywhere, as with headers "mytime"/"foo") is the
only place a header containing "time" is excluded. -/
theorem chooseValueField_time_column :
    ((chooseValueField ["data time"]
        [[("data time", "5")], [("data time", "6")]]).toOption).map
      (fun b => b.field) = some "data time" ∧
    containsSub (normalizeField "data time") "time".data = true ∧
    ((chooseValueField ["mytime", "foo"]
        [[("mytime", "1"), ("foo", "2")], [("mytime", "2"), ("foo", "3")]]).toOption).map
      (fun b => b.field) = some "foo" ∧
    containsSub (normalizeField "mytime") "time".data = true := by
  refine ⟨?_, by decide, ?_, by decide⟩ <;>
    simp +decide [chooseValueField, evalField, sanitizeCell, rowGet, sanitizeNumber,
      trimChars, replaceFirstComma, parseFloatQ, takeDigits, digitsToNat,
      FIELD_PRIORITY, normalizeField, containsSub, startsWith,
      List.filter, List.find?, List.filterMap, List.foldl, Except.toOption]

lemma divisorGo_spec :
    ∀ (fuel : ℕ) (m d : ℚ),
      ∃ k, k ≤ fuel ∧ divisorGo fuel m d = d * 10 ^ k ∧
        (m / 10 ^ k ≤ 20 ∨ k = fuel) ∧ ∀ j < k, 20 < m / 10 ^ j := by
  intro fuel
  induction fuel with
  | zero =>
    intro m d
    exact ⟨0, le_refl 0, by simp [divisorGo], Or.inr rfl, fun j hj => absurd hj (Nat.not_lt_zero j)⟩
  | succ n ih =>
    intro m d
    by_cases h : 20 < m
    · obtain ⟨k, hk, heq, hor, hmin⟩ := ih (m / 10) (d * 10)
      have hrw : ∀ i : ℕ, m / 10 / 10 ^ i = m / 10 ^ (i + 1) := by
        intro i
        rw [div_div, pow_succ]
        ring_nf
      refine ⟨k + 1, by omega, ?_, ?_, ?_⟩
      · simp only [divisorGo, if_pos h, heq]
        ring
      · rcases hor with hle | rfl
        · exact Or.inl (by rw [← hrw]; exact hle)
        · exact Or.inr rfl
      · intro j hj
        cases j with
        | zero => simpa using h
        | succ i =>
          have := hmin i (by omega)
          rw [hrw] at this
          exact this
    · push_neg at h
      refine ⟨0, Nat.zero_le _, ?_, Or.inl (by simpa using h),
        fun j hj => absurd hj (Nat.not_lt_zero j)⟩
      simp only [divisorGo, if_neg (not_lt.mpr h), pow_zero, mul_one]

/-- Counterexample to claim C6: for a column whose median is 10^9, the
smallest number of divide-by-10 steps bringing the median to at most 20
is 8, but the loop caps at 6 iterations and returns divisor 10^6, so no k
satisfies the claimed characterisation. -/
theorem columnDivisor_minimality_cex :
    ¬ ∃ k : ℕ, columnDivisor [1000000000] = 10 ^ k ∧ k ≤ 6 ∧
        medianVal [1000000000] / 10 ^ k ≤ 20 ∧
        ∀ j < k, 20 < medianVal [1000000000] / 10 ^ j := by
  have hmed : medianVal [1000000000] = 1000000000 := by
    norm_num [medianVal, sortAsc, insertSorted]
  have hdiv : columnDivisor [1000000000] = 1000000 := by
    norm_num [columnDivisor, divisorGo, hmed]
  rintro ⟨k, heq, hk6, hle, -⟩
  have h10 : (10 : ℚ) ^ k = 1000000 := by rw [← heq, hdiv]
  have hk : k = 6 := by
    have hnat : (10 : ℕ) ^ k = 10 ^ 6 := by
      have hq : ((10 : ℕ) ^ k : ℚ) = ((10 ^ 6 : ℕ) : ℚ) := by
        push_cast
        rw [h10]
      exact_mod_cast hq
    exact Nat.pow_right_injective (by norm_num) hnat
  subst hk
  rw [hmed] at hle
  norm_num at hle

/-- Claim C6 (amended): the derived divisor is `10 ^ k` where `k` is the
smallest number of divide-by-10 steps after which the column median is at
most 20, except that `k` is capped at 6 (so for a median above `20 * 10^5`
the divisor is `10^6` even though the capped median still exceeds 20);
the divisor is 1 whenever the median is already at most 20, and it never
exceeds `10^6`. -/
theorem columnDivisor_capped :
    ∀ values : List ℚ, ∃ k, k ≤ 6 ∧ columnDivisor values = 10 ^ k ∧
      (medianVal values / 10 ^ k ≤ 20 ∨ k = 6) ∧
      ∀ j < k, 20 < medianVal values / 10 ^ j := by
  intro values
  obtain ⟨k, hk, heq, hor, hmin⟩ := divisorGo_spec 6 (medianVal values) 1
  exact ⟨k, hk, by simpa [columnDivisor] using heq, hor, hmin⟩

lemma consecDiffs_length : ∀ l : List ℚ, (consecDiffs l).length = l.length - 1
  | [] => rfl
  | [_] => rfl
  | a :: b :: rest => by
    have := consecDiffs_length (b :: rest)
    simp only [consecDiffs, List.length_cons] at *
    omega

lemma consecDiffs_nonneg :
    ∀ l : List ℚ, List.Chain' (· ≤ ·) l → ∀ d ∈ consecDiffs l, 0 ≤ d
  | [] => by simp [consecDiffs]
  | [_] => by simp [consecDiffs]
  | a :: b :: rest => by
    intro hc d hd
    simp only [consecDiffs, List.mem_cons] at hd
    rcases hd with rfl | hd
    · have hab : a ≤ b := (List.chain'_cons.mp hc).1
      linarith
    · exact consecDiffs_nonneg (b :: rest) (List.chain'_cons.mp hc).2 d hd

/-- Counterexample to claim C8: a store of two samples sharing one
timestamp (duplicate times survive construction and sorting) has mean
inter-sample interval 0, and the code publishes `null` even though the
store has 2 samples, refuting "null exactly when fewer than 2 samples". -/
theorem samplingRateHz_cex :
    ¬ (samplingRateHz
        [{ timeSec := 0, value := 1, rawValue := 1 },
         { timeSec := 0, value := 2, rawValue := 2 }] = none ↔
       ([{ timeSec := 0, value := 1, rawValue := 1 },
         { timeSec := 0, value := 2, rawValue := 2 }] : List ParsedGsrSample).length < 2) := by
  have hrate : samplingRateHz
      [{ timeSec := 0, value := 1, rawValue := 1 },
       { timeSec := 0, value := 2, rawValue := 2 }] = none := by
    norm_num [samplingRateHz, consecDiffs, avgInterval]
  simp [hrate]

/-- Claim C8 (amended): for a time-sorted store, the published sampling
rate is the inverse of the mean inter-sample interval whenever it is
defined, and it is `null` exactly when the store has fewer than 2 samples
or the mean interval is 0 (all stored timestamps equal). -/
theorem samplingRateHz_spec :
    ∀ samples : List ParsedGsrSample,
      List.Chain' (fun a b => a.timeSec ≤ b.timeSec) samples →
      (samplingRateHz samples = none ↔ samples.length < 2 ∨ avgInterval samples = 0) ∧
      ∀ q, samplingRateHz samples = some q → q = 1 / avgInterval samples := by
  intro samples hch
  have hchm : List.Chain' (· ≤ ·) (samples.map (fun s => s.timeSec)) := by
    rw [List.chain'_map]
    exact hch
  have hlenmap := consecDiffs_length (samples.map (fun s => s.timeSec))
  rcases hds : consecDiffs (samples.map (fun s => s.timeSec)) with - | ⟨x, rest⟩
  · rw [hds] at hlenmap
    have hlen : samples.length < 2 := by
      simp only [List.length_nil, List.length_map] at hlenmap
      omega
    refine ⟨by simp [samplingRateHz, hds, hlen], ?_⟩
    intro q hq
    simp [samplingRateHz, hds] at hq
  · rw [hds] at hlenmap
    have hlen2 : 2 ≤ samples.length := by
      simp only [List.length_cons, List.length_map] at hlenmap
      omega
    have hnn : 0 ≤ avgInterval samples := by
      unfold avgInterval
      apply div_nonneg
      · exact List.sum_nonneg (fun d hd => consecDiffs_nonneg _ hchm d hd)
      · exact_mod_cast Nat.zero_le _
    constructor
    · constructor
      · intro hnone
        by_cases hpos : 0 < avgInterval samples
        · simp [samplingRateHz, hds, hpos] at hnone
        · exact Or.inr (le_antisymm (not_lt.mp hpos) hnn)
      · rintro (hlt | h0)
        · omega
        · simp [samplingRateHz, hds, h0]
    · intro q hq
      by_cases hpos : 0 < avgInterval samples
      · simp [samplingRateHz, hds, hpos] at hq
        rw [one_div]
        exact hq.symm
      · simp [samplingRateHz, hds, hpos] at hq

/-- Witness for the amended C8 at a concrete sorted two-sample store with
interval 2: the null characterisation holds there. -/
theorem samplingRateHz_spec_witness :
    samplingRateHz
        [{ timeSec := 0, value := 1, rawValue := 1 },
         { timeSec := 2, value := 2, rawValue := 2 }] = none ↔
      ([{ timeSec := 0, value := 1, rawValue := 1 },
        { timeSec := 2, value := 2, rawValue := 2 }] : List ParsedGsrSample).length < 2 ∨
      avgInterval
        [{ timeSec := 0, value := 1, rawValue := 1 },
         { timeSec := 2, value := 2, rawValue := 2 }] = 0 :=
  (samplingRateHz_spec
    [{ timeSec := 0, value := 1, rawValue := 1 },
     { timeSec := 2, value := 2, rawValue := 2 }]
    (by norm_num [List.chain'_cons, List.chain'_singleton])).1

lemma refScan_break (qt qb : ℚ) (l : List ParsedGsrSample)
    (prev : Option ParsedGsrSample) (acc : Option ℚ)
    (h : ∀ s ∈ l, qt < s.timeSec) : refScan qt qb l prev acc = acc := by
  cases l with
  | nil => rfl
  | cons s rest =>
    simp only [refScan]
    rw [if_pos (h s (List.mem_cons_self s rest))]

lemma refScan_onset (qt qb r : ℚ) (sk : ParsedGsrSample) (post : List ParsedGsrSample)
    (prev : Option ParsedGsrSample) (acc : Option ℚ)
    (hb : sk.baseline = some qb) (hr : sk.resistance = some r)
    (hle : sk.timeSec ≤ qt) (hpost : ∀ s ∈ post, qt < s.timeSec)
    (hprev : ∀ p, prev = some p → p.baseline ≠ some qb) :
    refScan qt qb (sk :: post) prev acc = some r := by
  have hnl : ¬ qt < sk.timeSec := not_lt.mpr hle
  cases prev with
  | none =>
    simp only [refScan, hb, hr]
    rw [if_neg hnl]
    simp only [if_true]
    exact refScan_break qt qb post (some sk) (some r) hpost
  | some p =>
    have hpb : p.baseline ≠ some qb := hprev p rfl
    simp only [refScan, hb, hr]
    rw [if_neg hnl]
    simp only [if_true]
    rw [if_pos hpb]
    exact refScan_break qt qb post (some sk) (some r) hpost

/-- The array predecessor of the element after `l`, seen from a scan that
entered `l` with predecessor `prev`: the last element of `l` when `l` is
non-empty, else `prev`. -/
def lastOr : List ParsedGsrSample → Option ParsedGsrSample → Option ParsedGsrSample
  | [], prev => prev
  | x :: rest, _ => lastOr rest (some x)

lemma lastOr_eq :
    ∀ (l : List ParsedGsrSample) (prev : Option ParsedGsrSample),
      lastOr l prev = (l.getLast?).or prev
  | [], prev => by simp [lastOr]
  | [x], prev => by simp [lastOr]
  | x :: y :: tl, prev => by
    rw [lastOr, lastOr_eq (y :: tl) (some x), List.getLast?_cons_cons]
    have hsome : ((y :: tl).getLast?).isSome := by
      rw [List.getLast?_isSome]
      simp
    obtain ⟨z, hz⟩ := Option.isSome_iff_exists.mp hsome
    rw [hz]
    rfl

lemma refScan_reach (qt qb r : ℚ) (sk : ParsedGsrSample) (post : List ParsedGsrSample)
    (hb : sk.baseline = some qb) (hr : sk.resistance = some r)
    (hle : sk.timeSec ≤ qt) (hpost : ∀ s ∈ post, qt < s.timeSec) :
    ∀ (pre : List ParsedGsrSample) (prev : Option ParsedGsrSample) (acc : Option ℚ),
      (∀ s ∈ pre, s.timeSec ≤ qt) →
      (∀ p, lastOr pre prev = some p → p.baseline ≠ some qb) →
      refScan qt qb (pre ++ sk :: post) prev acc = some r := by
  intro pre
  induction pre with
  | nil =>
    intro prev acc _ hlast
    simp only [List.nil_append]
    exact refScan_onset qt qb r sk post prev acc hb hr hle hpost
      (fun p hp => hlast p (by rw [lastOr]; exact hp))
  | cons x pre' ih =>
    intro prev acc hpre hlast
    have hnl : ¬ qt < x.timeSec := not_lt.mpr (hpre x (List.mem_cons_self x pre'))
    simp only [List.cons_append, refScan]
    rw [if_neg hnl]
    exact ih (some x) _ (fun s hs => hpre s (List.mem_cons_of_mem x hs))
      (fun p hp => hlast p (by rw [lastOr]; exact hp))

/-- Claim C4: when the queried sample is itself a regime onset (its list
predecessor, if any, carries a different baseline) carrying a resistance
value, and all earlier samples are at or before the query time while all
later ones are strictly after, the projection returns exactly the onset's
baseline (delta 0), regardless of what the earlier regimes were —
earlier onsets with the same baseline value are superseded because the
scan keeps the most recent onset's resistance as the reference. -/
theorem calculateGaugePosition_regime_onset :
    ∀ (pre post : List ParsedGsrSample) (sk : ParsedGsrSample) (b r : ℚ),
      sk.baseline = some b → sk.resistance = some r →
      (∀ s ∈ pre, s.timeSec ≤ sk.timeSec) →
      (∀ s ∈ post, sk.timeSec < s.timeSec) →
      (∀ p, pre.getLast? = some p → p.baseline ≠ some b) →
      DISPLAY_MIN ≤ b → b ≤ DISPLAY_MAX →
      calculateGaugePosition sk (pre ++ sk :: post) true true = b := by
  intro pre post sk b r hb hr hpre hpost honset h1 h2
  have hlast : ∀ p, lastOr pre none = some p → p.baseline ≠ some b := by
    intro p hp
    rw [lastOr_eq] at hp
    cases hg : pre.getLast? with
    | none =>
      rw [hg] at hp
      exact absurd hp (by simp [Option.or])
    | some q =>
      rw [hg] at hp
      simp only [Option.or] at hp
      have hqp := Option.some.inj hp
      subst hqp
      exact honset q hg
  have hscan : refScan sk.timeSec b (pre ++ sk :: post) none none = some r :=
    refScan_reach sk.timeSec b r sk post hb hr le_rfl hpost pre none none hpre hlast
  simp only [calculateGaugePosition, hb, hr, hscan]
  have hg : gaugePosition b r r = b := by
    unfold gaugePosition
    ring
  rw [hg, clamp_of_mem b DISPLAY_MIN DISPLAY_MAX h1 h2]

/-- Witness for C4: two earlier regimes (baseline 5) end at t = 100; a
new regime with baseline 4 and resistance 56 starts at the queried time
t = 200; the projection is exactly 4. -/
theorem calculateGaugePosition_regime_onset_witness :
    calculateGaugePosition
      { timeSec := 200, value := 4, rawValue := 4, baseline := some 4, resistance := some 56 }
      ([{ timeSec := 0, value := 5, rawValue := 5, baseline := some 5, resistance := some 58 },
        { timeSec := 100, value := 5, rawValue := 5, baseline := some 5, resistance := some 57 }] ++
        { timeSec := 200, value := 4, rawValue := 4, baseline := some 4, resistance := some 56 } ::
        [{ timeSec := 300, value := 4, rawValue := 4, baseline := some 4, resistance := some 55 }])
      true true = 4 :=
  calculateGaugePosition_regime_onset
    [{ timeSec := 0, value := 5, rawValue := 5, baseline := some 5, resistance := some 58 },
     { timeSec := 100, value := 5, rawValue := 5, baseline := some 5, resistance := some 57 }]
    [{ timeSec := 300, value := 4, rawValue := 4, baseline := some 4, resistance := some 55 }]
    { timeSec := 200, value := 4, rawValue := 4, baseline := some 4, resistance := some 56 }
    4 56 rfl rfl (by decide) (by decide) (by decide)
    (by norm_num [DISPLAY_MIN]) (by norm_num [DISPLAY_MAX])

lemma isDigit_ne_of (c d : Char) (h : c.isDigit = true) (hd : d.isDigit = false) :
    c ≠ d := by
  rintro rfl
  rw [h] at hd
  exact Bool.noConfusion hd

lemma isDigit_not_ws (c : Char) (h : c.isDigit = true) : c.isWhitespace = false := by
  have hw : ((c = ' ' ∨ c = '\t') ∨ c = '\r') ∨ c = '\n' → False := by
    rintro (((rfl | rfl) | rfl) | rfl) <;> exact absurd h (by decide)
  cases hcw : c.isWhitespace with
  | false => rfl
  | true =>
    exact absurd (by simpa [Char.isWhitespace] using hcw) hw

lemma dropWhile_ws_eq_self (l : List Char) (h : ∀ c ∈ l, c.isWhitespace = false) :
    l.dropWhile Char.isWhitespace = l := by
  cases l with
  | nil => rfl
  | cons c cs => simp [List.dropWhile_cons, h c (List.mem_cons_self c cs)]

lemma trimChars_eq_self (l : List Char) (h : ∀ c ∈ l, c.isWhitespace = false) :
    trimChars l = l := by
  unfold trimChars
  rw [dropWhile_ws_eq_self l h,
    dropWhile_ws_eq_self l.reverse (fun c hc => h c (List.mem_reverse.mp hc)),
    List.reverse_reverse]

lemma takeDigits_all :
    ∀ (ds rest : List Char), (∀ c ∈ ds, c.isDigit = true) →
      (∀ c, rest.head? = some c → c.isDigit = false) →
      takeDigits (ds ++ rest) = (ds, rest)
  | [], rest, _, hrest => by
    cases rest with
    | nil => rfl
    | cons c cs =>
      simp only [List.nil_append, takeDigits, hrest c rfl]
      rfl
  | d :: ds, rest, hds, hrest => by
    simp only [List.cons_append, takeDigits, hds d (List.mem_cons_self d ds), if_true,
      List.append_eq,
      takeDigits_all ds rest (fun c hc => hds c (List.mem_cons_of_mem d hc)) hrest]

lemma replaceFirstComma_no_comma :
    ∀ (l rest : List Char), (∀ c ∈ l, c ≠ ',') →
      replaceFirstComma (l ++ rest) = l ++ replaceFirstComma rest
  | [], rest, _ => by simp
  | c :: l, rest, h => by
    simp only [List.cons_append, replaceFirstComma, List.append_eq,
      if_neg (h c (List.mem_cons_self c l)),
      replaceFirstComma_no_comma l rest (fun x hx => h x (List.mem_cons_of_mem c hx))]

lemma parseFloatQ_grammar (sgnPart fracPart ds ds2 : List Char)
    (hsgn : sgnPart = ['-'] ∨ sgnPart = [])
    (hfrac : fracPart = '.' :: ds2 ∨ fracPart = [])
    (hne : ds ≠ []) (hds : ∀ c ∈ ds, c.isDigit = true)
    (hds2 : ∀ c ∈ ds2, c.isDigit = true) :
    parseFloatQ (sgnPart ++ ds ++ fracPart) ≠ none := by
  obtain ⟨d0, ds', rfl⟩ : ∃ d0 ds', ds = d0 :: ds' := by
    cases ds with
    | nil => exact absurd rfl hne
    | cons d0 ds' => exact ⟨d0, ds', rfl⟩
  have hd0 : d0.isDigit = true := hds d0 (List.mem_cons_self d0 ds')
  have h1 : d0 ≠ '-' := isDigit_ne_of d0 '-' hd0 (by decide)
  have h2 : d0 ≠ '+' := isDigit_ne_of d0 '+' hd0 (by decide)
  have htake : takeDigits ((d0 :: ds') ++ fracPart) = (d0 :: ds', fracPart) := by
    apply takeDigits_all (d0 :: ds') fracPart hds
    intro c hc
    rcases hfrac with rfl | rfl
    · cases Option.some.inj hc
      decide
    · simp at hc
  have htake2 : takeDigits ds2 = (ds2, []) := by
    simpa using takeDigits_all ds2 [] hds2 (by intro c hc; simp at hc)
  rw [List.cons_append] at htake
  rcases hsgn with rfl | rfl <;> rcases hfrac with rfl | rfl <;>
    (try rw [List.append_nil] at htake) <;>
    simp [parseFloatQ, htake, htake2, h1, h2]

/-- Counterexample to claim C7: the token "a1" contains a digit, so it
passes the regex gate, yet `parseFloat("a1")` is NaN and the token is
treated as missing — containing a digit is not sufficient for a token to
contribute a numeric value. -/
theorem sanitizeNumber_digit_cex :
    sanitizeNumber "a1".data = none ∧ "a1".data.any Char.isDigit = true := by
  constructor
  · norm_num +decide [sanitizeNumber, trimChars, replaceFirstComma, parseFloatQ,
      takeDigits, List.dropWhile, List.any]
  · decide

/-- Claim C7 (amended): a token contributes a numeric value only if it
contains at least one digit (the regex gate is necessary), and every
token of the numeric grammar — optional leading minus, digits, optional
'.' or ',' decimal separator followed by digits — does contribute one,
the comma being normalized to a period before float parsing; a token
that contains a digit but has no numeric prefix after normalization
(such as "a1") is treated as missing for its row, never as a hard
error. -/
theorem sanitizeNumber_grammar :
    ∀ (cs ds ds2 : List Char) (sgn : Bool) (sep : Option Char),
      (sanitizeNumber cs ≠ none → (trimChars cs).any Char.isDigit = true) ∧
      (ds ≠ [] → (∀ c ∈ ds, c.isDigit = true) → (∀ c ∈ ds2, c.isDigit = true) →
        (sep = none ∧ ds2 = [] ∨ (sep = some '.' ∨ sep = some ',') ∧ ds2 ≠ []) →
        sanitizeNumber ((if sgn then ['-'] else []) ++ ds ++
          (match sep with | some c => c :: ds2 | none => [])) ≠ none) := by
  intro cs ds ds2 sgn sep
  constructor
  · intro h
    unfold sanitizeNumber at h
    by_cases hgate : (trimChars cs).isEmpty ∨ ¬ (trimChars cs).any Char.isDigit
    · rw [if_pos hgate] at h
      exact absurd rfl h
    · push_neg at hgate
      exact hgate.2
  · intro hne hds hds2 hsep
    obtain ⟨d0, ds', rfl⟩ : ∃ d0 ds', ds = d0 :: ds' := by
      cases ds with
      | nil => exact absurd rfl hne
      | cons d0 ds' => exact ⟨d0, ds', rfl⟩
    have hsgnws : ∀ c ∈ (if sgn then ['-'] else []), c.isWhitespace = false := by
      intro c hc
      cases sgn
      · simp at hc
      · simp only [if_true, List.mem_singleton] at hc
        subst hc
        decide
    have hsgncomma : ∀ c ∈ (if sgn then ['-'] else []), c ≠ ',' := by
      intro c hc
      cases sgn
      · simp at hc
      · simp only [if_true, List.mem_singleton] at hc
        subst hc
        decide
    have hdscomma : ∀ c ∈ d0 :: ds', c ≠ ',' :=
      fun c hc => isDigit_ne_of c ',' (hds c hc) (by decide)
    have hds2self : replaceFirstComma ds2 = ds2 := by
      have := replaceFirstComma_no_comma ds2 []
        (fun c hc => isDigit_ne_of c ',' (hds2 c hc) (by decide))
      simpa [replaceFirstComma] using this
    rcases hsep with ⟨rfl, rfl⟩ | ⟨hsep', hne2⟩
    · -- plain integer token
      have htok : ∀ c ∈ (if sgn then ['-'] else []) ++ (d0 :: ds') ++ ([] : List Char),
          c.isWhitespace = false := by
        intro c hc
        simp only [List.append_nil, List.mem_append] at hc
        rcases hc with hc | hc
        · exact hsgnws c hc
        · exact isDigit_not_ws c (hds c hc)
      have htrim := trimChars_eq_self _ htok
      have hany : ((if sgn then ['-'] else []) ++ (d0 :: ds') ++ ([] : List Char)).any
          Char.isDigit = true := by
        refine List.any_eq_true.mpr ⟨d0, ?_, hds d0 (List.mem_cons_self d0 ds')⟩
        simp
      have hrfc : replaceFirstComma ((if sgn then ['-'] else []) ++ (d0 :: ds') ++ []) =
          (if sgn then ['-'] else []) ++ (d0 :: ds') ++ [] := by
        have := replaceFirstComma_no_comma ((if sgn then ['-'] else []) ++ (d0 :: ds')) []
          (by
            intro c hc
            rcases List.mem_append.mp hc with hc | hc
            · exact hsgncomma c hc
            · exact hdscomma c hc)
        simpa [replaceFirstComma] using this
      unfold sanitizeNumber
      rw [htrim, if_neg (not_or.mpr ⟨by simp, not_not_intro hany⟩), hrfc]
      exact parseFloatQ_grammar (if sgn then ['-'] else []) [] (d0 :: ds') []
        (by cases sgn <;> simp) (Or.inr rfl) hne hds (by simp)
    · -- token with decimal separator
      obtain ⟨sepc, rfl⟩ : ∃ sepc, sep = some sepc := by
        rcases hsep' with rfl | rfl <;> exact ⟨_, rfl⟩
      have hsepc : sepc = '.' ∨ sepc = ',' := by
        rcases hsep' with h | h <;> cases Option.some.inj h
        · exact Or.inl rfl
        · exact Or.inr rfl
      have htok : ∀ c ∈ (if sgn then ['-'] else []) ++ (d0 :: ds') ++ (sepc :: ds2),
          c.isWhitespace = false := by
        intro c hc
        simp only [List.mem_append] at hc
        rcases hc with (hc | hc) | hc
        · exact hsgnws c hc
        · exact isDigit_not_ws c (hds c hc)
        · rcases List.mem_cons.mp hc with rfl | hc
          · rcases hsepc with rfl | rfl <;> decide
          · exact isDigit_not_ws c (hds2 c hc)
      have htrim := trimChars_eq_self _ htok
      have hany : ((if sgn then ['-'] else []) ++ (d0 :: ds') ++ (sepc :: ds2)).any
          Char.isDigit = true := by
        refine List.any_eq_true.mpr ⟨d0, ?_, hds d0 (List.mem_cons_self d0 ds')⟩
        simp
      have hrfc : replaceFirstComma ((if sgn then ['-'] else []) ++ (d0 :: ds') ++ (sepc :: ds2)) =
          (if sgn then ['-'] else []) ++ (d0 :: ds') ++ ('.' :: ds2) := by
        rw [List.append_assoc, replaceFirstComma_no_comma ((if sgn then ['-'] else []))
          ((d0 :: ds') ++ (sepc :: ds2)) hsgncomma]
        rw [replaceFirstComma_no_comma (d0 :: ds') (sepc :: ds2) hdscomma]
        rcases hsepc with rfl | rfl
        · rw [show replaceFirstComma ('.' :: ds2) = '.' :: replaceFirstComma ds2 by
            simp [replaceFirstComma]]
          rw [hds2self, List.append_assoc]
        · rw [show replaceFirstComma (',' :: ds2) = '.' :: ds2 by simp [replaceFirstComma]]
          rw [List.append_assoc]
      unfold sanitizeNumber
      rw [htrim, if_neg (not_or.mpr ⟨by simp, not_not_intro hany⟩), hrfc]
      exact parseFloatQ_grammar (if sgn then ['-'] else []) ('.' :: ds2) (d0 :: ds') ds2
        (by cases sgn <;> simp) (Or.inl rfl) hne hds hds2

/-- Witness for the amended C7: the token "5" parses (so the necessary
digit condition is exercised), and the grammar token "56,40" (comma
separator) is parseable. -/
theorem sanitizeNumber_grammar_witness :
    (trimChars "5".data).any Char.isDigit = true ∧
    sanitizeNumber ((if false then ['-'] else []) ++ ['5', '6'] ++
      (match some ',' with | some c => c :: ['4', '0'] | none => [])) ≠ none :=
  ⟨(sanitizeNumber_grammar "5".data ['5'] [] false none).1
      (by
        simp +decide [sanitizeNumber, trimChars, replaceFirstComma, parseFloatQ,
          takeDigits, List.dropWhile, List.any]),
   (sanitizeNumber_grammar "56,40".data ['5', '6'] ['4', '0'] false (some ',')).2
      (by decide) (by decide) (by decide) (Or.inr ⟨Or.inr rfl, by decide⟩)⟩

lemma getD_sorted_lt (samples : List ParsedGsrSample)
    (hs : List.Pairwise (fun a b => a.timeSec < b.timeSec) samples) :
    ∀ i j : ℕ, i < j → j < samples.length →
      (samples.getD i dfltSample).timeSec < (samples.getD j dfltSample).timeSec := by
  intro i j hij hj
  have hi : i < samples.length := lt_trans hij hj
  rw [List.getD_eq_getElem samples dfltSample hi, List.getD_eq_getElem samples dfltSample hj]
  exact List.pairwise_iff_getElem.mp hs i j hi hj hij

lemma searchLoop_spec (samples : List ParsedGsrSample) (t : ℚ)
    (hs : ∀ i j : ℕ, i < j → j < samples.length →
      (samples.getD i dfltSample).timeSec < (samples.getD j dfltSample).timeSec) :
    ∀ (fuel : ℕ) (left right : Int),
      0 ≤ left → right ≤ (samples.length : Int) - 1 → left ≤ right + 1 →
      (right + 1 - left).toNat ≤ fuel →
      (∀ i : ℕ, (i : Int) < left → (samples.getD i dfltSample).timeSec < t) →
      (∀ i : ℕ, right < (i : Int) → i < samples.length →
        t < (samples.getD i dfltSample).timeSec) →
      match searchLoop samples t fuel left right with
      | Sum.inl m => m < samples.length ∧ (samples.getD m dfltSample).timeSec = t
      | Sum.inr (l, r) =>
          l = r + 1 ∧ 0 ≤ l ∧ r ≤ (samples.length : Int) - 1 ∧
          (∀ i : ℕ, (i : Int) < l → (samples.getD i dfltSample).timeSec < t) ∧
          (∀ i : ℕ, r < (i : Int) → i < samples.length →
            t < (samples.getD i dfltSample).timeSec) := by
  intro fuel
  induction fuel with
  | zero =>
    intro left right h0 hub hlr hfuel hlo hhi
    have hleq : left = right + 1 := by omega
    simp only [searchLoop]
    exact ⟨hleq, by omega, hub, hlo, hhi⟩
  | succ n ih =>
    intro left right h0 hub hlr hfuel hlo hhi
    simp only [searchLoop]
    by_cases hcase : left ≤ right
    · rw [if_pos hcase]
      set mid := (left + right) / 2 with hmid
      have hmid1 : left ≤ mid := by omega
      have hmid2 : mid ≤ right := by omega
      have hmidn : mid.toNat < samples.length := by omega
      by_cases heq : (nthSample samples mid).timeSec = t
      · rw [if_pos heq]
        exact ⟨hmidn, heq⟩
      · rw [if_neg heq]
        by_cases hlt : (nthSample samples mid).timeSec < t
        · rw [if_pos hlt]
          apply ih (mid + 1) right (by omega) hub (by omega) (by omega) ?_ hhi
          intro i hi
          have hin : i ≤ mid.toNat := by omega
          rcases lt_or_eq_of_le hin with hilt | hieq
          · exact lt_trans (hs i mid.toNat hilt hmidn) hlt
          · rw [hieq]
            exact hlt
        · rw [if_neg hlt]
          have hgt : t < (nthSample samples mid).timeSec :=
            lt_of_le_of_ne (not_lt.mp hlt) (Ne.symm heq)
          apply ih left (mid - 1) h0 (by omega) (by omega) (by omega) hlo ?_
          intro i hi hiN
          have him : mid.toNat ≤ i := by omega
          rcases eq_or_lt_of_le him with hieq | hilt
          · rw [← hieq]
            exact hgt
          · exact lt_trans hgt (hs mid.toNat i hilt hiN)
    · rw [if_neg hcase]
      exact ⟨by omega, by omega, hub, hlo, hhi⟩

lemma nthSample_natCast (samples : List ParsedGsrSample) (k : ℕ) :
    nthSample samples (k : Int) = samples.getD k dfltSample := by
  simp [nthSample]

lemma nthSample_natCast_succ (samples : List ParsedGsrSample) (k : ℕ) :
    nthSample samples ((k : Int) + 1) = samples.getD (k + 1) dfltSample := by
  have hcast : ((k : Int) + 1) = ((k + 1 : ℕ) : Int) := by push_cast; ring
  rw [hcast, nthSample_natCast]

lemma nthSample_last (samples : List ParsedGsrSample) (h : 1 ≤ samples.length) :
    nthSample samples ((samples.length : Int) - 1) =
      samples.getD (samples.length - 1) dfltSample := by
  unfold nthSample
  congr 1
  omega

lemma useInterpolatedSample_between (samples : List ParsedGsrSample) (t : ℚ) (k : ℕ)
    (hsp : List.Pairwise (fun a b => a.timeSec < b.timeSec) samples)
    (hk : k + 1 < samples.length)
    (hlow : (samples.getD k dfltSample).timeSec < t)
    (hup : t < (samples.getD (k + 1) dfltSample).timeSec) :
    useInterpolatedSample samples t =
      some (interpRecord (samples.getD k dfltSample) (samples.getD (k + 1) dfltSample) t) := by
  have hsl := getD_sorted_lt samples hsp
  cases samples with
  | nil => simp at hk
  | cons s0 rest =>
    have hs0 : s0.timeSec < t := by
      rcases Nat.eq_zero_or_pos k with rfl | hkpos
      · exact hlow
      · exact lt_trans (hsl 0 k hkpos (by omega)) hlow
    have hlastgt : t < (nthSample (s0 :: rest) (((s0 :: rest).length : Int) - 1)).timeSec := by
      rw [nthSample_last (s0 :: rest) (by simp)]
      rcases eq_or_lt_of_le (show k + 1 ≤ (s0 :: rest).length - 1 by omega) with heq | hlt
      · rw [← heq]
        exact hup
      · exact lt_trans hup (hsl (k + 1) ((s0 :: rest).length - 1) hlt (by omega))
    have hspec := searchLoop_spec (s0 :: rest) t hsl (s0 :: rest).length 0
      (((s0 :: rest).length : Int) - 1) le_rfl le_rfl (by omega) (by omega)
      (fun i hi => absurd hi (by omega))
      (fun i hi hiN => absurd hiN (by omega))
    simp only [useInterpolatedSample]
    rw [if_neg (not_le.mpr hs0), if_neg (not_le.mpr hlastgt)]
    rcases hres : searchLoop (s0 :: rest) t (s0 :: rest).length 0
        (((s0 :: rest).length : Int) - 1) with m | ⟨l, r⟩
    · rw [hres] at hspec
      obtain ⟨hmn, hmt⟩ := hspec
      rcases Nat.lt_trichotomy m k with hmk | rfl | hmk
      · have := hsl m k hmk (by omega)
        exact ((by linarith : False)).elim
      · exact ((by linarith : False)).elim
      · have hm1 : k + 1 ≤ m := hmk
        rcases eq_or_lt_of_le hm1 with heq | hlt
        · rw [← heq] at hmt
          exact ((by linarith : False)).elim
        · have := hsl (k + 1) m hlt hmn
          exact ((by linarith : False)).elim
    · rw [hres] at hspec
      obtain ⟨hlr, hl0, hrub, hInv1, hInv2⟩ := hspec
      have hrk : r = (k : Int) := by
        by_contra hne
        rcases lt_or_gt_of_ne hne with hlt | hgt
        · have := hInv2 k (by omega) (by omega)
          linarith
        · have := hInv1 (k + 1) (by omega)
          linarith
      subst hrk
      have hlk : l = (k : Int) + 1 := by omega
      subst hlk
      have hmax : jsMaxI 0 (k : Int) = (k : Int) := by
        unfold jsMaxI
        rw [if_pos (by omega)]
      have hmin2 : jsMinI (((s0 :: rest).length : Int) - 1) ((k : Int) + 1) = (k : Int) + 1 := by
        unfold jsMinI
        split_ifs with h
        · omega
        · rfl
      simp only []
      rw [hmax, hmin2, nthSample_natCast, nthSample_natCast_succ]
      have htne : ((s0 :: rest).getD (k + 1) dfltSample).timeSec ≠
          ((s0 :: rest).getD k dfltSample).timeSec :=
        ne_of_gt (hsl k (k + 1) (by omega) hk)
      rw [if_neg htne]

/-- Claim C2: the baseline returned by `useInterpolatedSample` is never an
interpolated value: every returned baseline is exactly some stored
sample's baseline, and for a query time strictly between two bracketing
samples it is exactly the lower bracket's baseline (step semantics). -/
theorem useInterpolatedSample_baseline_step :
    ∀ (samples : List ParsedGsrSample) (t : ℚ) (s : ParsedGsrSample),
      List.Pairwise (fun a b => a.timeSec < b.timeSec) samples →
      useInterpolatedSample samples t = some s →
      (∃ i, i < samples.length ∧ s.baseline = (samples.getD i dfltSample).baseline) ∧
      ∀ k, k + 1 < samples.length →
        (samples.getD k dfltSample).timeSec < t →
        t < (samples.getD (k + 1) dfltSample).timeSec →
        s.baseline = (samples.getD k dfltSample).baseline := by
  intro samples t s hsp h
  constructor
  · cases samples with
    | nil => simp [useInterpolatedSample] at h
    | cons s0 rest =>
      simp only [useInterpolatedSample] at h
      by_cases h1 : t ≤ s0.timeSec
      · rw [if_pos h1] at h
        cases Option.some.inj h
        exact ⟨0, by simp, rfl⟩
      · rw [if_neg h1] at h
        by_cases h2 : (nthSample (s0 :: rest) (((s0 :: rest).length : Int) - 1)).timeSec ≤ t
        · rw [if_pos h2] at h
          cases Option.some.inj h
          refine ⟨(s0 :: rest).length - 1, by simp, ?_⟩
          rw [← nthSample_last (s0 :: rest) (by simp)]
        · rw [if_neg h2] at h
          have hsl := getD_sorted_lt (s0 :: rest) hsp
          have hspec := searchLoop_spec (s0 :: rest) t hsl (s0 :: rest).length 0
            (((s0 :: rest).length : Int) - 1) le_rfl le_rfl (by omega) (by omega)
            (fun i hi => absurd hi (by omega))
            (fun i hi hiN => absurd hiN (by omega))
          rcases hres : searchLoop (s0 :: rest) t (s0 :: rest).length 0
              (((s0 :: rest).length : Int) - 1) with m | ⟨l, r⟩
          · rw [hres] at h hspec
            obtain ⟨hmn, -⟩ := hspec
            cases Option.some.inj h
            exact ⟨m, hmn, rfl⟩
          · rw [hres] at h hspec
            obtain ⟨hlr, hl0, hrub, -, -⟩ := hspec
            have hlen1 : (s0 :: rest).length = rest.length + 1 := by simp
            have hbound : 0 ≤ jsMaxI 0 r ∧ jsMaxI 0 r ≤ ((s0 :: rest).length : Int) - 1 := by
              unfold jsMaxI
              split_ifs <;> constructor <;> omega
            have hlin : (jsMaxI 0 r).toNat < (s0 :: rest).length := by omega
            simp only [] at h
            by_cases h3 : (nthSample (s0 :: rest)
                (jsMinI (((s0 :: rest).length : Int) - 1) l)).timeSec =
                (nthSample (s0 :: rest) (jsMaxI 0 r)).timeSec
            · rw [if_pos h3] at h
              cases Option.some.inj h
              exact ⟨(jsMaxI 0 r).toNat, hlin, rfl⟩
            · rw [if_neg h3] at h
              cases Option.some.inj h
              exact ⟨(jsMaxI 0 r).toNat, hlin, rfl⟩
  · intro k hk hlow hup
    rw [useInterpolatedSample_between samples t k hsp hk hlow hup] at h
    cases Option.some.inj h
    rfl

/-- Witness for C2: a two-sample store with baselines 3 and 4, queried at
the strict midpoint, returns the lower sample's baseline 3 exactly. -/
theorem useInterpolatedSample_baseline_step_witness :
    (⟨50, 3/2, 3/2, some 3, none⟩ : ParsedGsrSample).baseline =
      (([{ timeSec := 0, value := 1, rawValue := 1, baseline := some 3 },
          { timeSec := 100, value := 2, rawValue := 2, baseline := some 4 }] :
          List ParsedGsrSample).getD 0 dfltSample).baseline :=
  (useInterpolatedSample_baseline_step
    [{ timeSec := 0, value := 1, rawValue := 1, baseline := some 3 },
     { timeSec := 100, value := 2, rawValue := 2, baseline := some 4 }]
    50 ⟨50, 3/2, 3/2, some 3, none⟩
    (by norm_num [List.pairwise_cons])
    (by
      norm_num [useInterpolatedSample, searchLoop, nthSample, jsMaxI, jsMinI,
        interpRecord, clamp, jsMin, jsMax, dfltSample])).2
    0 (by norm_num) (by norm_num) (by norm_num)

/-- Counterexample to claim C3: with the baseline missing on the lower
bracket but present on the upper one, the interpolated sample's baseline
is `undefined` (the code always takes `lower.baseline`), not the upper
side's value 4 as the per-field fallback rule would require. -/
theorem interpolation_fallback_cex :
    (useInterpolatedSample
      [{ timeSec := 0, value := 1, rawValue := 1 },
       { timeSec := 100, value := 2, rawValue := 2, baseline := some 4 }] 50).map
      (fun s => s.baseline) = some none ∧
    (([{ timeSec := 0, value := 1, rawValue := 1 },
        { timeSec := 100, value := 2, rawValue := 2, baseline := some 4 }] :
        List ParsedGsrSample).getD 1 dfltSample).baseline = some 4 := by
  constructor
  · norm_num [useInterpolatedSample, searchLoop, nthSample, jsMaxI, jsMinI,
      interpRecord, clamp, jsMin, jsMax, dfltSample]
  · rfl

/-- Claim C3 (amended): for a query strictly between two bracketing
samples, the one-side-missing fallback holds for `resistance` (take
whichever side has it; `undefined` when both miss it), but `baseline`
always comes from the lower bracket — a baseline missing on the lower
side yields `undefined` even when the upper side has one. -/
theorem interpolation_field_sources :
    ∀ (samples : List ParsedGsrSample) (t : ℚ) (k : ℕ) (s : ParsedGsrSample),
      List.Pairwise (fun a b => a.timeSec < b.timeSec) samples →
      k + 1 < samples.length →
      (samples.getD k dfltSample).timeSec < t →
      t < (samples.getD (k + 1) dfltSample).timeSec →
      useInterpolatedSample samples t = some s →
      s.baseline = (samples.getD k dfltSample).baseline ∧
      ((samples.getD k dfltSample).resistance = none →
        (samples.getD (k + 1) dfltSample).resistance = none → s.resistance = none) ∧
      (∀ lr, (samples.getD k dfltSample).resistance = some lr →
        (samples.getD (k + 1) dfltSample).resistance = none → s.resistance = some lr) ∧
      (∀ ur, (samples.getD k dfltSample).resistance = none →
        (samples.getD (k + 1) dfltSample).resistance = some ur → s.resistance = some ur) := by
  intro samples t k s hsp hk hlow hup h
  rw [useInterpolatedSample_between samples t k hsp hk hlow hup] at h
  cases Option.some.inj h
  refine ⟨rfl, ?_, ?_, ?_⟩
  · intro h1 h2
    simp only [interpRecord]
    rw [h1, h2]
  · intro lr h1 h2
    simp only [interpRecord]
    rw [h1, h2]
  · intro ur h1 h2
    simp only [interpRecord]
    rw [h1, h2]

/-- Witness for the amended C3: resistance missing on the lower bracket
and present (7) on the upper one is taken from the upper side. -/
theorem interpolation_field_sources_witness :
    (⟨50, 3/2, 3/2, none, some 7⟩ : ParsedGsrSample).resistance = some 7 :=
  (interpolation_field_sources
    [{ timeSec := 0, value := 1, rawValue := 1 },
     { timeSec := 100, value := 2, rawValue := 2, resistance := some 7 }]
    50 0 ⟨50, 3/2, 3/2, none, some 7⟩
    (by norm_num [List.pairwise_cons])
    (by norm_num)
    (by norm_num)
    (by norm_num)
    (by
      norm_num [useInterpolatedSample, searchLoop, nthSample, jsMaxI, jsMinI,
        interpRecord, clamp, jsMin, jsMax, dfltSample])).2.2.2
    7 rfl rfl
